import Mathlib

/-!
Verification of the gastown merge-queue CLI (`internal/cmd/mq.go`).

The Go source is shallowly embedded: strings are handled as `String` /
`List Char`, the collaborator packages (`beads` issue store, `refinery`
manager, mail) that are not part of the sources are modelled from the
specification and marked as such in their doc comments.  All definitions
are executable.
-/

namespace Gastown

/-! ### Character and list-of-char helpers (Go `strings` / `regexp` plumbing) -/

/-- Go `strings.HasPrefix` on character lists. -/
def hasPrefixL : List Char → List Char → Bool
  | [], _ => true
  | _ :: _, [] => false
  | p :: ps, c :: cs => p == c && hasPrefixL ps cs

/-- Remove a leading key text from a line; `none` when the line does not
start with it.  Used by the field decoder. -/
def stripKeyL : List Char → List Char → Option (List Char)
  | [], s => some s
  | _ :: _, [] => none
  | p :: ps, c :: cs => if p = c then stripKeyL ps cs else none

/-- Break a character list at the first occurrence of `sep`:
returns the part before it and, when found, the part after it. -/
def breakOnSep (sep : Char) : List Char → (List Char × Option (List Char))
  | [] => ([], none)
  | c :: rest =>
    if c = sep then ([], some rest)
    else
      let r := breakOnSep sep rest
      (c :: r.1, r.2)

/-- Go `strings.SplitN(s, sep, n)` for `n ≥ 0`: at most `n` substrings,
the last one holding the unsplit remainder. -/
def goSplitN (sep : Char) : Nat → List Char → List (List Char)
  | 0, _ => []
  | 1, s => [s]
  | n + 2, s =>
    match breakOnSep sep s with
    | (pre, none) => [pre]
    | (pre, some rest) => pre :: goSplitN sep (n + 1) rest

/-- Go `strings.Split(s, sep)` (single-character separator). -/
def splitOn (sep : Char) : List Char → List (List Char)
  | [] => [[]]
  | c :: rest =>
    if c = sep then [] :: splitOn sep rest
    else
      match splitOn sep rest with
      | [] => [[c]]
      | x :: xs => (c :: x) :: xs

/-- Membership of a line in a list of lines. -/
def containsLine (target : List Char) : List (List Char) → Bool
  | [] => false
  | l :: rest => l == target || containsLine target rest

/-- First line carrying the given key: the value after the key text,
or `[]` when no line matches. -/
def findFieldVal (kp : List Char) : List (List Char) → List Char
  | [] => []
  | l :: rest =>
    match stripKeyL kp l with
    | some v => v
    | none => findFieldVal kp rest

/-! ### Branch parser (`parseBranchName`, mq.go lines 161-193) -/

/-- `branchInfo` struct of mq.go. -/
structure branchInfo where
  Branch : String
  Issue : String
  Worker : String
deriving DecidableEq, Repr

def isLowerCh (c : Char) : Bool := 'a' ≤ c && c ≤ 'z'

def isDigitCh (c : Char) : Bool := '0' ≤ c && c ≤ '9'

def isLowerDigitCh (c : Char) : Bool := isLowerCh c || isDigitCh c

/-- Match of the Go regular expression
`([a-z]+-[a-z0-9]+(?:\.[0-9]+)?)` anchored at the start of `s`,
with RE2 greedy semantics (maximal runs; the optional dot-digits part
taken when present). -/
def matchIssueAt (s : List Char) : Option (List Char) :=
  let sp1 := s.span isLowerCh
  if sp1.1.isEmpty then none
  else
    match sp1.2 with
    | '-' :: rest2 =>
      let sp2 := rest2.span isLowerDigitCh
      if sp2.1.isEmpty then none
      else
        let base := sp1.1 ++ '-' :: sp2.1
        match sp2.2 with
        | '.' :: rest4 =>
          let sp3 := rest4.span isDigitCh
          if sp3.1.isEmpty then some base
          else some (base ++ '.' :: sp3.1)
        | _ => some base
    | _ => none

/-- Leftmost match of the issue-id pattern in a branch name
(Go `regexp.FindStringSubmatch` is leftmost-first). -/
def findIssue : List Char → Option (List Char)
  | [] => none
  | c :: rest =>
    match matchIssueAt (c :: rest) with
    | some m => some m
    | none => findIssue rest

/-- Fallback arm of `parseBranchName`: scan for an embedded issue id. -/
def fallbackParse (branch : String) : branchInfo :=
  match findIssue branch.data with
  | some m => { Branch := branch, Issue := String.mk m, Worker := "" }
  | none => { Branch := branch, Issue := "", Worker := "" }

/-- `parseBranchName` (mq.go lines 172-193): the `polecat/worker/issue`
convention first, otherwise the embedded-issue-id pattern. -/
def parseBranchName (branch : String) : branchInfo :=
  if hasPrefixL "polecat/".data branch.data then
    match goSplitN '/' 3 branch.data with
    | [_, w, i] => { Branch := branch, Issue := String.mk i, Worker := String.mk w }
    | _ => fallbackParse branch
  else fallbackParse branch

/-! ### Theorems for claims C2 and C3 -/

/-- Claim C3: a branch starting with `polecat/` that splits on `/` into
exactly three parts parses to worker = second part, issue = third part,
without the fallback pattern being consulted. -/
theorem C3_polecat_form (b : String) (p q r : List Char)
    (h1 : hasPrefixL "polecat/".data b.data = true)
    (h2 : goSplitN '/' 3 b.data = [p, q, r]) :
    parseBranchName b = { Branch := b, Issue := String.mk r, Worker := String.mk q } := by
  simp [parseBranchName, h1, h2]

theorem C3_polecat_form_witness :
    parseBranchName "polecat/Nux/gt-xyz" =
      { Branch := "polecat/Nux/gt-xyz", Issue := "gt-xyz", Worker := "Nux" } :=
  C3_polecat_form "polecat/Nux/gt-xyz" "polecat".data "Nux".data "gt-xyz".data
    (by decide) (by decide)

/-- Claim C2, counterexample: `feature/random-name` does contain a
substring matching the issue-id pattern (`random-name`), so the parser
does not return an empty issue there. -/
theorem C2_counterexample :
    parseBranchName "feature/random-name" ≠
      { Branch := "feature/random-name", Issue := "", Worker := "" } := by
  decide

/-- Claim C2 as amended: `parseBranchName` is total, and when the branch
does not parse under the `polecat/worker/issue` convention and contains no
substring matching the issue-id pattern, both worker and issue come back
empty.  (`feature/random-name` is not such a branch: `random-name` matches
the pattern; `feature/randomname` is.) -/
theorem C2_no_match_empty (b : String)
    (h1 : hasPrefixL "polecat/".data b.data = false ∨
          (goSplitN '/' 3 b.data).length ≠ 3)
    (h2 : findIssue b.data = none) :
    parseBranchName b = { Branch := b, Issue := "", Worker := "" } := by
  have hfb : fallbackParse b = { Branch := b, Issue := "", Worker := "" } := by
    simp [fallbackParse, h2]
  rcases h1 with h1 | h1
  · simp [parseBranchName, h1, hfb]
  · unfold parseBranchName
    rcases hpre : hasPrefixL "polecat/".data b.data with _ | _
    · simp [hfb]
    · rcases hsp : goSplitN '/' 3 b.data with _ | ⟨x1, _ | ⟨x2, _ | ⟨x3, _ | ⟨x4, t⟩⟩⟩⟩ <;>
        simp_all [hfb]

theorem C2_no_match_empty_witness :
    parseBranchName "feature/randomname" =
      { Branch := "feature/randomname", Issue := "", Worker := "" } :=
  C2_no_match_empty "feature/randomname" (Or.inl (by decide)) (by decide)

/-! ### Issue records of the beads store

`beads.Issue` as used by mq.go; the Go field `Type` is rendered `Typ`
(`Type` is reserved in Lean). -/

structure Issue where
  ID : String
  Title : String
  Typ : String
  Status : String
  Priority : Int
  BlockedBy : List String
  BlockedByCount : Nat
  CreatedAt : String
  Description : String
deriving DecidableEq, Repr

/-- Display status of an MR row (`runMQList`, mq.go lines 494-502):
stored status verbatim unless `open`, in which case `blocked` when the
blocker list or blocker count is non-empty, else `ready`. -/
def displayStatus (issue : Issue) : String :=
  if issue.Status = "open" then
    if 0 < issue.BlockedBy.length ∨ 0 < issue.BlockedByCount then "blocked"
    else "ready"
  else issue.Status

/-- Claim C4: for a record whose blocker count agrees with its blocker
list (the single `blockedBy` set of the data model), the displayed status
is the stored status verbatim for `closed`/`rejected`/`in_progress`,
`blocked` for `open` with non-empty blockers, `ready` for `open` with no
blockers. -/
theorem C4_display_status (i : Issue)
    (hc : i.BlockedByCount = i.BlockedBy.length) :
    ((i.Status = "closed" ∨ i.Status = "rejected" ∨ i.Status = "in_progress") →
        displayStatus i = i.Status) ∧
    (i.Status = "open" → i.BlockedBy ≠ [] → displayStatus i = "blocked") ∧
    (i.Status = "open" → i.BlockedBy = [] → displayStatus i = "ready") := by
  refine ⟨?_, ?_, ?_⟩
  · intro h
    have hne : i.Status ≠ "open" := by
      rcases h with h | h | h <;> rw [h] <;> decide
    simp [displayStatus, hne]
  · intro hs hb
    have hlen : 0 < i.BlockedBy.length := List.length_pos.mpr hb
    simp [displayStatus, hs, hlen]
  · intro hs hb
    simp [displayStatus, hs, hb, hc]

theorem C4_display_status_witness :
    displayStatus { ID := "gt-mr-1", Title := "", Typ := "task", Status := "open",
                    Priority := 2, BlockedBy := [], BlockedByCount := 0,
                    CreatedAt := "", Description := "" } = "ready" :=
  (C4_display_status _ rfl).2.2 rfl rfl

/-! ### Field codec (beads package, not under src/) -/

/-- Modelled from the spec: `beads.MRFields`, the non-identifier MR
attributes carried in the issue description. -/
structure MRFields where
  Branch : String
  Target : String
  SourceIssue : String
  Worker : String
  Rig : String
deriving DecidableEq, Repr

/-- Key text of the `branch` line, with its separator. -/
def keyBranch : List Char := ['b', 'r', 'a', 'n', 'c', 'h', ':', ' ']

/-- Key text of the `target` line. -/
def keyTarget : List Char := ['t', 'a', 'r', 'g', 'e', 't', ':', ' ']

/-- Key text of the `source_issue` line. -/
def keySourceIssue : List Char :=
  ['s', 'o', 'u', 'r', 'c', 'e', '_', 'i', 's', 's', 'u', 'e', ':', ' ']

/-- Key text of the `worker` line. -/
def keyWorker : List Char := ['w', 'o', 'r', 'k', 'e', 'r', ':', ' ']

/-- Key text of the `rig` line. -/
def keyRig : List Char := ['r', 'i', 'g', ':', ' ']

/-- The MR type-marker line. -/
def markerL : List Char := "type: merge-request".data

/-- One encoded `key: value` line (with trailing newline); empty values
are omitted. -/
def fieldChunk (kp : List Char) (v : String) : List Char :=
  if v = "" then [] else kp ++ v.data ++ ['\n']

/-- Character text of the encoded field block, in the fixed key order. -/
def formatChunks (f : MRFields) : List Char :=
  fieldChunk keyBranch f.Branch ++ fieldChunk keyTarget f.Target ++
  fieldChunk keySourceIssue f.SourceIssue ++ fieldChunk keyWorker f.Worker ++
  fieldChunk keyRig f.Rig

/-- Modelled from the spec: `beads.FormatMRFields` — one `key: value`
line per present field, fixed lower-case keys, values verbatim, empty
fields omitted. -/
def FormatMRFields (f : MRFields) : String := String.mk (formatChunks f)

/-- The description text written by `runMqSubmit` (mq.go line 323):
the literal marker line, then the encoded fields. -/
def mrDescription (f : MRFields) : String :=
  String.mk (markerL ++ '\n' :: formatChunks f)

/-- The submit-side encoding equals marker-line-plus-codec-output,
exactly as the Go source concatenates them. -/
theorem mrDescription_eq (f : MRFields) :
    mrDescription f = "type: merge-request\n" ++ FormatMRFields f := by
  have h : "type: merge-request\n".data = markerL ++ ['\n'] := by decide
  show String.mk (markerL ++ '\n' :: formatChunks f) =
    String.mk ("type: merge-request\n".data ++ formatChunks f)
  rw [h, List.append_assoc]
  rfl

/-- Modelled from the spec: `beads.ParseMRFields` — pure function of the
stored description text; `none` when the marker line is missing; each
recognized key takes the value of its first line, absent keys give the
empty string; never fails on malformed input. -/
def ParseMRFields (issue : Issue) : Option MRFields :=
  let lines := splitOn '\n' issue.Description.data
  if containsLine markerL lines then
    some { Branch := String.mk (findFieldVal keyBranch lines)
         , Target := String.mk (findFieldVal keyTarget lines)
         , SourceIssue := String.mk (findFieldVal keySourceIssue lines)
         , Worker := String.mk (findFieldVal keyWorker lines)
         , Rig := String.mk (findFieldVal keyRig lines) }
  else none

/-! ### Submit pipeline (`runMqSubmit`, mq.go lines 234-349) -/

/-- `beads.CreateOptions` (Go field `Type` rendered `Typ`). -/
structure CreateOptions where
  Title : String
  Typ : String
  Priority : Int
  Description : String
deriving DecidableEq, Repr

/-- The submit flags of the `mq submit` command; `priority` defaults to
`-1` (no override). -/
structure SubmitFlags where
  branch : String
  issue : String
  epic : String
  priority : Int
deriving DecidableEq, Repr

/-- Outcome of a submit run: the command result plus the trace of
`bd.Create` calls it performed. -/
structure SubmitOutcome where
  result : Except String Issue
  createCalls : List CreateOptions
deriving Repr

/-- The branch submitted: the `--branch` flag, else the current git
branch. -/
def effBranch (flags : SubmitFlags) (currentBranch : String) : String :=
  if flags.branch = "" then currentBranch else flags.branch

/-- The source issue id: the `--issue` flag, else the one parsed from
the branch name. -/
def effIssueID (flags : SubmitFlags) (branch : String) : String :=
  if flags.issue = "" then (parseBranchName branch).Issue else flags.issue

/-- `runMqSubmit` as a pure function of its flag values, rig name,
current git branch, and the issue-store collaborators (`bd.Show` as an
oracle, `bd.Create` as an oracle); workspace and rig discovery is taken
as already done. -/
def runMqSubmit (flags : SubmitFlags) (rigName currentBranch : String)
    (bdShow : String → Option Issue)
    (bdCreate : CreateOptions → Except String Issue) : SubmitOutcome :=
  let branch := effBranch flags currentBranch
  if branch = "main" ∨ branch = "master" then
    { result := Except.error "cannot submit main/master branch to merge queue",
      createCalls := [] }
  else
    let issueID := effIssueID flags branch
    if issueID = "" then
      { result := Except.error "cannot determine source issue from branch; use --issue to specify",
        createCalls := [] }
    else
      let target := if flags.epic = "" then "main" else "integration/" ++ flags.epic
      let priority : Int :=
        if 0 ≤ flags.priority then flags.priority
        else
          match bdShow issueID with
          | none => 2
          | some sourceIssue => sourceIssue.Priority
      let worker := (parseBranchName branch).Worker
      let mrFields : MRFields :=
        { Branch := branch, Target := target, SourceIssue := issueID,
          Worker := worker, Rig := rigName }
      let createOpts : CreateOptions :=
        { Title := "Merge: " ++ issueID, Typ := "task", Priority := priority,
          Description := mrDescription mrFields }
      let res : Except String Issue :=
        match bdCreate createOpts with
        | Except.error e => Except.error ("creating merge request: " ++ e)
        | Except.ok issue => Except.ok issue
      { result := res, createCalls := [createOpts] }

/-- Claim C5: with an explicit `--priority p`, `p ≥ 0`, the created MR
carries priority `p`; with the default negative flag the priority is the
source issue's when `Show` resolves it, else `2`. -/
theorem C5_priority_inheritance (flags : SubmitFlags) (rigName currentBranch : String)
    (bdShow : String → Option Issue) (bdCreate : CreateOptions → Except String Issue)
    (opts : CreateOptions)
    (hmem : opts ∈ (runMqSubmit flags rigName currentBranch bdShow bdCreate).createCalls) :
    (0 ≤ flags.priority → opts.Priority = flags.priority) ∧
    (flags.priority < 0 →
        bdShow (effIssueID flags (effBranch flags currentBranch)) = none →
        opts.Priority = 2) ∧
    (∀ sourceIssue, flags.priority < 0 →
        bdShow (effIssueID flags (effBranch flags currentBranch)) = some sourceIssue →
        opts.Priority = sourceIssue.Priority) := by
  simp only [runMqSubmit] at hmem
  by_cases hb : effBranch flags currentBranch = "main" ∨
      effBranch flags currentBranch = "master"
  · simp [hb] at hmem
  · by_cases hi : effIssueID flags (effBranch flags currentBranch) = ""
    · simp [hb, hi] at hmem
    · simp only [if_neg hb, if_neg hi, List.mem_singleton] at hmem
      subst hmem
      refine ⟨?_, ?_, ?_⟩
      · intro h
        simp [h]
      · intro h hs
        have hneg : ¬ (0 ≤ flags.priority) := by omega
        simp [hneg, hs]
      · intro sourceIssue h hs
        have hneg : ¬ (0 ≤ flags.priority) := by omega
        simp [hneg, hs]

def c5Flags : SubmitFlags := { branch := "", issue := "", epic := "", priority := 0 }

/-- The single create call the C5 witness run performs. -/
def c5Opts : CreateOptions :=
  ((runMqSubmit c5Flags "gastown" "polecat/Nux/gt-7" (fun _ => none)
      (fun _ => Except.error "down")).createCalls).headD
    { Title := "", Typ := "", Priority := 9, Description := "" }

theorem C5_priority_inheritance_witness : c5Opts.Priority = 0 :=
  (C5_priority_inheritance c5Flags "gastown" "polecat/Nux/gt-7"
    (fun _ => none) (fun _ => Except.error "down") c5Opts (by decide)).1 (by decide)

/-- Claim C7: submitting `main`/`master`, or a branch with no derivable
source issue and no `--issue` flag, is a validation error: the command
reports an error and performs no `Create`. -/
theorem C7_validation_no_create (flags : SubmitFlags) (rigName currentBranch : String)
    (bdShow : String → Option Issue) (bdCreate : CreateOptions → Except String Issue)
    (h : effBranch flags currentBranch = "main" ∨
         effBranch flags currentBranch = "master" ∨
         (flags.issue = "" ∧ (parseBranchName (effBranch flags currentBranch)).Issue = "")) :
    (∃ e, (runMqSubmit flags rigName currentBranch bdShow bdCreate).result =
        Except.error e) ∧
    (runMqSubmit flags rigName currentBranch bdShow bdCreate).createCalls = [] := by
  unfold runMqSubmit
  by_cases hb : effBranch flags currentBranch = "main" ∨
      effBranch flags currentBranch = "master"
  · simp [hb]
  · have hi : effIssueID flags (effBranch flags currentBranch) = "" := by
      rcases h with h | h | ⟨h1, h2⟩
      · exact absurd (Or.inl h) hb
      · exact absurd (Or.inr h) hb
      · simp [effIssueID, h1, h2]
    simp [hb, hi]

theorem C7_validation_no_create_witness :
    (runMqSubmit { branch := "main", issue := "", epic := "", priority := -1 }
        "gastown" "x" (fun _ => none) (fun _ => Except.error "down")).createCalls = [] :=
  (C7_validation_no_create _ "gastown" "x" (fun _ => none) (fun _ => Except.error "down")
    (Or.inl (by decide))).2

/-- Claim C10: every issue `mq submit` creates goes to the store with the
generic type `task`, never a native `merge-request` type; its description
is exactly the `type: merge-request` marker line followed by the encoded
MR fields. -/
theorem C10_task_type_marker (flags : SubmitFlags) (rigName currentBranch : String)
    (bdShow : String → Option Issue) (bdCreate : CreateOptions → Except String Issue)
    (opts : CreateOptions)
    (hmem : opts ∈ (runMqSubmit flags rigName currentBranch bdShow bdCreate).createCalls) :
    opts.Typ = "task" ∧ opts.Typ ≠ "merge-request" ∧
    ∃ f : MRFields, opts.Description = mrDescription f ∧
      opts.Description.data =
        "type: merge-request".data ++ '\n' :: (FormatMRFields f).data := by
  simp only [runMqSubmit] at hmem
  by_cases hb : effBranch flags currentBranch = "main" ∨
      effBranch flags currentBranch = "master"
  · simp [hb] at hmem
  · by_cases hi : effIssueID flags (effBranch flags currentBranch) = ""
    · simp [hb, hi] at hmem
    · simp only [if_neg hb, if_neg hi, List.mem_singleton] at hmem
      subst hmem
      exact ⟨rfl, (by decide : ("task" : String) ≠ "merge-request"), _, rfl, rfl⟩

def c10Flags : SubmitFlags := { branch := "", issue := "", epic := "", priority := -1 }

/-- The single create call the C10 witness run performs. -/
def c10Opts : CreateOptions :=
  ((runMqSubmit c10Flags "gastown" "polecat/Nux/gt-7" (fun _ => none)
      (fun _ => Except.error "down")).createCalls).headD
    { Title := "", Typ := "", Priority := 9, Description := "" }

theorem C10_task_type_marker_witness : c10Opts.Typ = "task" :=
  (C10_task_type_marker c10Flags "gastown" "polecat/Nux/gt-7"
    (fun _ => none) (fun _ => Except.error "down") c10Opts (by decide)).1

/-! ### Issue store (beads package, not under src/) -/

/-- Modelled from the spec: the generic beads issue store.  It has no
native merge-request type; `Create(title, type, priority, description)`
assigns an id and records the issue with stored status `open` and no
blockers. -/
structure Store where
  issues : List Issue
  nextId : Nat
deriving DecidableEq, Repr

/-- Modelled from the spec: `bd.Create` — records a new issue of the
requested type with status `open`, assigning the next id. -/
def storeCreate (st : Store) (opts : CreateOptions) : Store × Issue :=
  let issue : Issue :=
    { ID := "gt-mr-" ++ toString st.nextId, Title := opts.Title, Typ := opts.Typ,
      Status := "open", Priority := opts.Priority, BlockedBy := [],
      BlockedByCount := 0, CreatedAt := "", Description := opts.Description }
  ({ issues := st.issues ++ [issue], nextId := st.nextId + 1 }, issue)

/-- Modelled from the spec: `bd.Show` — the stored issue with that id. -/
def storeShow (st : Store) (id : String) : Option Issue :=
  st.issues.find? (fun i => i.ID == id)

/-- Modelled from the spec: `bd.Ready()` — the stored issues with no
unresolved blockers (open, empty blocker set). -/
def storeReady (st : Store) : List Issue :=
  st.issues.filter (fun i =>
    i.Status == "open" && i.BlockedBy.isEmpty && i.BlockedByCount == 0)

/-- Replay a trace of `Create` calls against a store. -/
def applyCreates (st : Store) : List CreateOptions → Store
  | [] => st
  | o :: rest => applyCreates (storeCreate st o).1 rest

/-! ### List command (`runMQList`, mq.go lines 395-552) -/

/-- Flags of `mq list`. -/
structure ListFlags where
  ready : Bool
  status : String
  worker : String
  epic : String
deriving DecidableEq, Repr

/-- `beads.ListOptions` (Go field `Type` rendered `Typ`). -/
structure ListOptions where
  Typ : String
  Status : String
deriving DecidableEq, Repr

/-- Go `strings.EqualFold`, restricted to simple case folding. -/
def equalFold (a b : String) : Bool :=
  a.data.map Char.toLower == b.data.map Char.toLower

/-- `runMQList` as a pure function returning the filtered queue rows:
with `--ready` the store's ready query filtered to native type
`merge-request`, otherwise a type/status query; then the worker and epic
filters over the decoded MR fields. -/
def runMQList (flags : ListFlags) (bdReady : List Issue)
    (bdList : ListOptions → List Issue) : List Issue :=
  let issues :=
    if flags.ready then
      bdReady.filter (fun i => i.Typ == "merge-request")
    else
      let status := if flags.status ≠ "" then flags.status else "open"
      bdList { Typ := "merge-request", Status := status }
  issues.filter (fun i =>
    let fields := ParseMRFields i
    let workerOk :=
      if flags.worker = "" then true
      else
        equalFold (match fields with | some f => f.Worker | none => "") flags.worker
    let epicOk :=
      if flags.epic = "" then true
      else
        (match fields with | some f => f.Target | none => "") ==
          "integration/" ++ flags.epic
    workerOk && epicOk)

/-! ### Claim C1: submit then list --ready -/

def c1Flags : SubmitFlags :=
  { branch := "polecat/Toast/gt-42", issue := "", epic := "gt-epic1", priority := -1 }

def c1St0 : Store := { issues := [], nextId := 0 }

def c1Out : SubmitOutcome :=
  runMqSubmit c1Flags "gastown" "polecat/Toast/gt-42" (storeShow c1St0)
    (fun o => Except.ok (storeCreate c1St0 o).2)

def c1St1 : Store := applyCreates c1St0 c1Out.createCalls

def c1ListFlags : ListFlags := { ready := true, status := "", worker := "", epic := "" }

/-- Claim C1 fails on the code: the submit succeeds and stores the MR as
a `task`-typed issue carrying the MR marker in its description with the
claimed worker, source issue and target, the store reports it as the one
ready (unblocked, open) issue, yet `mq list --ready` returns the empty
list, because `runMQList` keeps only issues whose native store type is
`merge-request` — a type `runMqSubmit` never writes. -/
theorem C1_ready_listing_bug :
    (∃ i, c1Out.result = Except.ok i ∧ i.Typ = "task" ∧
        ParseMRFields i = some
          { Branch := "polecat/Toast/gt-42", Target := "integration/gt-epic1",
            SourceIssue := "gt-42", Worker := "Toast", Rig := "gastown" }) ∧
    (storeReady c1St1).map Issue.ID = ["gt-mr-0"] ∧
    runMQList c1ListFlags (storeReady c1St1) (fun _ => []) = [] := by
  refine ⟨⟨_, rfl, ?_, ?_⟩, ?_, ?_⟩ <;> decide

/-! ### Refinery manager (refinery package, not under src/) -/

/-- Modelled from the spec: a refinery merge-request record (data model
of spec section 3; `reason` is the rejection audit-trail entry, distinct
from the `error` field). -/
structure MergeRequest where
  ID : String
  Branch : String
  Target : String
  SourceIssue : String
  Worker : String
  Rig : String
  Priority : Int
  Status : String
  BlockedBy : List String
  Error : String
  Reason : String
  CreatedAt : String
deriving DecidableEq, Repr

/-- The refinery error kinds surfaced by retry/reject
(`refinery.ErrMRNotFound`, `refinery.ErrMRNotFailed`). -/
inductive RefineryErr where
  | ErrMRNotFound
  | ErrMRNotFailed
deriving DecidableEq, Repr

/-- The MR with the given identifier, if any. -/
def findMR (mrs : List MergeRequest) (mrID : String) : Option MergeRequest :=
  mrs.find? (fun m => m.ID == mrID)

/-- Modelled from the spec: `Manager.GetMR` — `NotFound` when absent,
otherwise the full record. -/
def GetMR (mrs : List MergeRequest) (mrID : String) :
    Except RefineryErr MergeRequest :=
  match findMR mrs mrID with
  | none => Except.error RefineryErr.ErrMRNotFound
  | some mr => Except.ok mr

/-- Modelled from the spec: `Manager.Retry(mrID, now)` — `NotFound` when
no such MR, `NotFailed` unless the stored status is `open` with a
non-empty `error`; on success the error is cleared (the `now` mode then
processes synchronously, which the state view below does not model). -/
def Retry (mrs : List MergeRequest) (mrID : String) (_now : Bool) :
    Except RefineryErr (List MergeRequest) :=
  match findMR mrs mrID with
  | none => Except.error RefineryErr.ErrMRNotFound
  | some mr =>
    if mr.Status = "open" ∧ mr.Error ≠ "" then
      Except.ok (mrs.map (fun m => if m.ID == mrID then { m with Error := "" } else m))
    else Except.error RefineryErr.ErrMRNotFailed

/-- `runMQRetry` (mq.go lines 351-393) as a pure function: `GetMR`
first (surfacing `NotFound`), then `Retry` (surfacing `NotFailed`). -/
def runMQRetry (mrs : List MergeRequest) (mrID : String) (now : Bool) :
    Except RefineryErr (List MergeRequest) :=
  match GetMR mrs mrID with
  | Except.error e => Except.error e
  | Except.ok _ => Retry mrs mrID now

/-- Claim C8: retry fails with `NotFound` on an unknown id, fails with
`NotFailed` on an MR that is not open-with-error, surfaces exactly these
two error kinds, and succeeds only on a previously-failed MR. -/
theorem C8_retry_errors (mrs : List MergeRequest) (mrID : String) (now : Bool) :
    (findMR mrs mrID = none →
        runMQRetry mrs mrID now = Except.error RefineryErr.ErrMRNotFound) ∧
    (∀ mr, findMR mrs mrID = some mr → ¬(mr.Status = "open" ∧ mr.Error ≠ "") →
        runMQRetry mrs mrID now = Except.error RefineryErr.ErrMRNotFailed) ∧
    (∀ e, runMQRetry mrs mrID now = Except.error e →
        e = RefineryErr.ErrMRNotFound ∨ e = RefineryErr.ErrMRNotFailed) ∧
    (∀ mrs2, runMQRetry mrs mrID now = Except.ok mrs2 →
        ∃ mr, findMR mrs mrID = some mr ∧ mr.Status = "open" ∧ mr.Error ≠ "") := by
  refine ⟨?_, ?_, ?_, ?_⟩
  · intro h
    simp [runMQRetry, GetMR, h]
  · intro mr hfind hnf
    simp [runMQRetry, GetMR, Retry, hfind, hnf]
  · intro e _
    cases e
    · exact Or.inl rfl
    · exact Or.inr rfl
  · intro mrs2 hok
    unfold runMQRetry GetMR Retry at hok
    rcases hfind : findMR mrs mrID with _ | mr
    · rw [hfind] at hok
      simp at hok
    · rw [hfind] at hok
      by_cases hc : mr.Status = "open" ∧ mr.Error ≠ ""
      · exact ⟨mr, rfl, hc⟩
      · simp [hc] at hok

def c8MR : MergeRequest :=
  { ID := "gt-mr-9", Branch := "polecat/Nux/gt-9", Target := "main",
    SourceIssue := "gt-9", Worker := "Nux", Rig := "gastown", Priority := 2,
    Status := "open", BlockedBy := [], Error := "", Reason := "", CreatedAt := "" }

theorem C8_retry_errors_witness :
    runMQRetry [c8MR] "gt-mr-9" false = Except.error RefineryErr.ErrMRNotFailed ∧
    runMQRetry [c8MR] "gt-mr-0" false = Except.error RefineryErr.ErrMRNotFound :=
  ⟨(C8_retry_errors [c8MR] "gt-mr-9" false).2.1 c8MR (by decide) (by decide),
   (C8_retry_errors [c8MR] "gt-mr-0" false).1 (by decide)⟩

/-! ### Reject operation (refinery package, not under src/) -/

/-- A dispatched mail (`Send(address, subject, body)`). -/
structure Mail where
  addr : String
  subject : String
  body : String
deriving DecidableEq, Repr

/-- Shared mutable state seen by the refinery manager: MR records, the
source-issue store, and the mail log of attempted dispatches. -/
structure RefState where
  mrs : List MergeRequest
  issues : List Issue
  mails : List Mail
deriving DecidableEq, Repr

/-- Modelled from the spec: reject resolves its target by identifier or
by exact branch-name match. -/
def resolveMR (mrs : List MergeRequest) (arg : String) : Option MergeRequest :=
  match mrs.find? (fun m => m.ID == arg) with
  | some m => some m
  | none => mrs.find? (fun m => m.Branch == arg)

/-- Set status `rejected` and record the reason in the audit trail of
the record with the given id; every other field is untouched. -/
def markRejected (mrID reason : String) (m : MergeRequest) : MergeRequest :=
  if m.ID == mrID then { m with Status := "rejected", Reason := reason } else m

/-- The notification mail sent to the MR's worker on rejection. -/
def rejectMail (m : MergeRequest) (reason : String) : Mail :=
  { addr := m.Worker, subject := "Merge request rejected: " ++ m.Branch,
    body := reason }

/-- Result record of a rejection, as consumed by `runMQReject`. -/
structure RejectResult where
  Branch : String
  Worker : String
  IssueID : String
  NotifyFailed : Bool
deriving DecidableEq, Repr

/-- Modelled from the spec: `Manager.RejectMR(idOrBranch, reason,
notify)` — `NotFound` when nothing resolves; otherwise sets status
`rejected` recording the reason outside the `error` field, never touches
the source issue, and, when `notify` is set, attempts exactly one mail
dispatch to the worker; a mail transport failure (`mailOk = false`) is
reported in the result and does not roll the rejection back. -/
def RejectMR (st : RefState) (arg reason : String) (notify mailOk : Bool) :
    Except RefineryErr (RefState × RejectResult) :=
  match resolveMR st.mrs arg with
  | none => Except.error RefineryErr.ErrMRNotFound
  | some mr =>
    Except.ok
      ({ mrs := st.mrs.map (markRejected mr.ID reason),
         issues := st.issues,
         mails := st.mails ++ (if notify then [rejectMail mr reason] else []) },
       { Branch := mr.Branch, Worker := mr.Worker, IssueID := mr.SourceIssue,
         NotifyFailed := notify && !mailOk })

/-- Claim C9: a resolved rejection succeeds (for either value of the
mail transport outcome, so a failed notification does not roll it back),
leaves the issue store untouched, appends exactly one worker-addressed
mail when `notify` is set and none otherwise, marks every record with
the resolved id `rejected` with the reason in the audit trail, and
changes no other field — in particular `error` and the source-issue
reference stay as they were. -/
theorem C9_reject_semantics (st : RefState) (arg reason : String)
    (notify mailOk : Bool) (mr : MergeRequest)
    (h : resolveMR st.mrs arg = some mr) :
    ∃ res, RejectMR st arg reason notify mailOk =
      Except.ok
        ({ mrs := st.mrs.map (markRejected mr.ID reason),
           issues := st.issues,
           mails := st.mails ++ (if notify then [rejectMail mr reason] else []) },
         res) ∧
      (∀ m ∈ st.mrs.map (markRejected mr.ID reason), m.ID = mr.ID →
          m.Status = "rejected" ∧ m.Reason = reason) ∧
      (∀ m, (markRejected mr.ID reason m).Error = m.Error ∧
            (markRejected mr.ID reason m).SourceIssue = m.SourceIssue ∧
            (markRejected mr.ID reason m).ID = m.ID) ∧
      (rejectMail mr reason).addr = mr.Worker := by
  refine ⟨{ Branch := mr.Branch, Worker := mr.Worker, IssueID := mr.SourceIssue,
            NotifyFailed := notify && !mailOk }, ?_, ?_, ?_, rfl⟩
  · simp [RejectMR, h]
  · intro m hmem hid
    rcases List.mem_map.mp hmem with ⟨m0, _, hm0⟩
    subst hm0
    unfold markRejected at hid ⊢
    by_cases hm : m0.ID == mr.ID
    · simp [hm]
    · rw [if_neg hm] at hid
      exact absurd (beq_iff_eq.mpr hid) hm
  · intro m
    unfold markRejected
    by_cases hm : m.ID == mr.ID <;> simp [hm]

def c9MR : MergeRequest :=
  { ID := "gt-mr-5", Branch := "polecat/Toast/gt-5", Target := "main",
    SourceIssue := "gt-5", Worker := "Toast", Rig := "gastown", Priority := 1,
    Status := "open", BlockedBy := [], Error := "merge conflict", Reason := "",
    CreatedAt := "" }

def c9State : RefState := { mrs := [c9MR], issues := [], mails := [] }

theorem C9_reject_semantics_witness :
    ∃ out, RejectMR c9State "polecat/Toast/gt-5" "superseded" true false =
      Except.ok out ∧ out.1.issues = [] ∧
      out.1.mails = [rejectMail c9MR "superseded"] := by
  obtain ⟨res, heq, -, -, -⟩ :=
    C9_reject_semantics c9State "polecat/Toast/gt-5" "superseded" true false c9MR
      (by decide)
  exact ⟨_, heq, rfl, rfl⟩

/-! ### Codec round-trip (claim C6) -/

/-- Splitting at a separator that ends a separator-free chunk peels that
chunk off. -/
theorem splitOn_append (a b : List Char) (h : '\n' ∉ a) :
    splitOn '\n' (a ++ '\n' :: b) = a :: splitOn '\n' b := by
  induction a with
  | nil => simp [splitOn]
  | cons c cs ih =>
    have hc : c ≠ '\n' := fun hcc => h (hcc ▸ List.mem_cons_self c cs)
    have hcs : '\n' ∉ cs := fun hm => h (List.mem_cons_of_mem c hm)
    simp only [List.cons_append, splitOn, if_neg hc]
    rw [List.append_eq, ih hcs]

/-- The line contributed by one encoded field, as the decoder sees it:
nothing for an empty value, the `key: value` line otherwise. -/
def optLine (kp : List Char) (v : String) (rest : List (List Char)) :
    List (List Char) :=
  if v = "" then rest else (kp ++ v.data) :: rest

/-- Splitting an encoded field chunk peels off its (optional) line. -/
theorem splitOn_fieldChunk (kp : List Char) (v : String) (rest : List Char)
    (hk : '\n' ∉ kp) (hv : '\n' ∉ v.data) :
    splitOn '\n' (fieldChunk kp v ++ rest) = optLine kp v (splitOn '\n' rest) := by
  by_cases h : v = ""
  · simp [fieldChunk, optLine, h]
  · rw [fieldChunk, if_neg h, optLine, if_neg h]
    have hshape : kp ++ v.data ++ ['\n'] ++ rest = (kp ++ v.data) ++ '\n' :: rest := by
      simp
    rw [hshape]
    exact splitOn_append _ _ (by simp [hk, hv])

/-- The line list an encoded description splits into. -/
def codecLines (f : MRFields) : List (List Char) :=
  markerL :: optLine keyBranch f.Branch (optLine keyTarget f.Target
    (optLine keySourceIssue f.SourceIssue (optLine keyWorker f.Worker
      (optLine keyRig f.Rig [[]]))))

/-- An encoded description splits into its marker line followed by the
per-field lines, provided the values are single-line. -/
theorem splitOn_mrDescription (f : MRFields)
    (h1 : '\n' ∉ f.Branch.data) (h2 : '\n' ∉ f.Target.data)
    (h3 : '\n' ∉ f.SourceIssue.data) (h4 : '\n' ∉ f.Worker.data)
    (h5 : '\n' ∉ f.Rig.data) :
    splitOn '\n' (mrDescription f).data = codecLines f := by
  show splitOn '\n' (markerL ++ '\n' :: formatChunks f) = codecLines f
  rw [splitOn_append markerL _ (by decide)]
  unfold codecLines
  congr 1
  unfold formatChunks
  simp only [List.append_assoc]
  rw [splitOn_fieldChunk keyBranch _ _ (by decide) h1]
  congr 1
  rw [splitOn_fieldChunk keyTarget _ _ (by decide) h2]
  congr 1
  rw [splitOn_fieldChunk keySourceIssue _ _ (by decide) h3]
  congr 1
  rw [splitOn_fieldChunk keyWorker _ _ (by decide) h4]
  congr 1
  rw [← List.append_nil (fieldChunk keyRig f.Rig),
    splitOn_fieldChunk keyRig _ _ (by decide) h5]
  rfl

/-- Removing a full key text as a key succeeds and leaves the value. -/
theorem stripKeyL_self (p s : List Char) : stripKeyL p (p ++ s) = some s := by
  induction p with
  | nil => simp [stripKeyL]
  | cons c cs ih => simp [stripKeyL, ih]

/-- A line the key does not head is skipped by the field scan. -/
theorem ffv_cons_none (kp l : List Char) (rest : List (List Char))
    (h : stripKeyL kp l = none) :
    findFieldVal kp (l :: rest) = findFieldVal kp rest := by
  simp [findFieldVal, h]

/-- The field scan finds its own key's line. -/
theorem ffv_optLine_hit (kp : List Char) (v : String) (rest : List (List Char)) :
    findFieldVal kp (optLine kp v rest) =
      if v = "" then findFieldVal kp rest else v.data := by
  by_cases h : v = ""
  · simp [optLine, h]
  · simp [optLine, h, findFieldVal, stripKeyL_self]

/-- Key texts whose first characters differ. -/
def headDiff : List Char → List Char → Bool
  | a :: _, b :: _ => a != b
  | _, _ => false

/-- A key never strips from a line headed by a key with a different
first character. -/
theorem stripKeyL_headDiff (kp kq w : List Char) (h : headDiff kp kq = true) :
    stripKeyL kp (kq ++ w) = none := by
  cases kp with
  | nil => simp [headDiff] at h
  | cons a p =>
    cases kq with
    | nil => simp [headDiff] at h
    | cons b q =>
      simp only [headDiff, bne_iff_ne] at h
      simp [stripKeyL, h]

/-- The field scan skips another field's line. -/
theorem ffv_optLine_other (kp kq : List Char) (v : String)
    (rest : List (List Char)) (h : headDiff kp kq = true) :
    findFieldVal kp (optLine kq v rest) = findFieldVal kp rest := by
  by_cases hv : v = ""
  · simp [optLine, hv]
  · rw [optLine, if_neg hv]
    exact ffv_cons_none kp _ rest (stripKeyL_headDiff kp kq v.data h)

theorem walkBranch (f : MRFields) :
    findFieldVal keyBranch (codecLines f) =
      if f.Branch = "" then [] else f.Branch.data := by
  unfold codecLines
  rw [ffv_cons_none keyBranch markerL _ (by decide), ffv_optLine_hit]
  by_cases h : f.Branch = ""
  · rw [if_pos h, if_pos h,
      ffv_optLine_other keyBranch keyTarget _ _ (by decide),
      ffv_optLine_other keyBranch keySourceIssue _ _ (by decide),
      ffv_optLine_other keyBranch keyWorker _ _ (by decide),
      ffv_optLine_other keyBranch keyRig _ _ (by decide),
      ffv_cons_none keyBranch [] _ (by decide)]
    rfl
  · rw [if_neg h, if_neg h]

theorem walkTarget (f : MRFields) :
    findFieldVal keyTarget (codecLines f) =
      if f.Target = "" then [] else f.Target.data := by
  unfold codecLines
  rw [ffv_cons_none keyTarget markerL _ (by decide),
    ffv_optLine_other keyTarget keyBranch _ _ (by decide), ffv_optLine_hit]
  by_cases h : f.Target = ""
  · rw [if_pos h, if_pos h,
      ffv_optLine_other keyTarget keySourceIssue _ _ (by decide),
      ffv_optLine_other keyTarget keyWorker _ _ (by decide),
      ffv_optLine_other keyTarget keyRig _ _ (by decide),
      ffv_cons_none keyTarget [] _ (by decide)]
    rfl
  · rw [if_neg h, if_neg h]

theorem walkSourceIssue (f : MRFields) :
    findFieldVal keySourceIssue (codecLines f) =
      if f.SourceIssue = "" then [] else f.SourceIssue.data := by
  unfold codecLines
  rw [ffv_cons_none keySourceIssue markerL _ (by decide),
    ffv_optLine_other keySourceIssue keyBranch _ _ (by decide),
    ffv_optLine_other keySourceIssue keyTarget _ _ (by decide), ffv_optLine_hit]
  by_cases h : f.SourceIssue = ""
  · rw [if_pos h, if_pos h,
      ffv_optLine_other keySourceIssue keyWorker _ _ (by decide),
      ffv_optLine_other keySourceIssue keyRig _ _ (by decide),
      ffv_cons_none keySourceIssue [] _ (by decide)]
    rfl
  · rw [if_neg h, if_neg h]

theorem walkWorker (f : MRFields) :
    findFieldVal keyWorker (codecLines f) =
      if f.Worker = "" then [] else f.Worker.data := by
  unfold codecLines
  rw [ffv_cons_none keyWorker markerL _ (by decide),
    ffv_optLine_other keyWorker keyBranch _ _ (by decide),
    ffv_optLine_other keyWorker keyTarget _ _ (by decide),
    ffv_optLine_other keyWorker keySourceIssue _ _ (by decide), ffv_optLine_hit]
  by_cases h : f.Worker = ""
  · rw [if_pos h, if_pos h,
      ffv_optLine_other keyWorker keyRig _ _ (by decide),
      ffv_cons_none keyWorker [] _ (by decide)]
    rfl
  · rw [if_neg h, if_neg h]

theorem walkRig (f : MRFields) :
    findFieldVal keyRig (codecLines f) =
      if f.Rig = "" then [] else f.Rig.data := by
  unfold codecLines
  rw [ffv_cons_none keyRig markerL _ (by decide),
    ffv_optLine_other keyRig keyBranch _ _ (by decide),
    ffv_optLine_other keyRig keyTarget _ _ (by decide),
    ffv_optLine_other keyRig keySourceIssue _ _ (by decide),
    ffv_optLine_other keyRig keyWorker _ _ (by decide), ffv_optLine_hit]
  by_cases h : f.Rig = ""
  · rw [if_pos h, if_pos h, ffv_cons_none keyRig [] _ (by decide)]
    rfl
  · rw [if_neg h, if_neg h]

/-- Rebuild a string from the scan result of its own encoded line. -/
theorem strMk_if (v : String) : String.mk (if v = "" then [] else v.data) = v := by
  by_cases h : v = ""
  · subst h
    decide
  · rw [if_neg h]

/-- Claim C6: decoding an encoded field set with single-line values
gives the field set back: `ParseMRFields` of the description written at
submission (`type: merge-request` marker plus `FormatMRFields` output)
recovers every field. -/
theorem C6_roundtrip (i : Issue) (f : MRFields)
    (hd : i.Description = mrDescription f)
    (h1 : '\n' ∉ f.Branch.data) (h2 : '\n' ∉ f.Target.data)
    (h3 : '\n' ∉ f.SourceIssue.data) (h4 : '\n' ∉ f.Worker.data)
    (h5 : '\n' ∉ f.Rig.data) :
    ParseMRFields i = some f := by
  have hlines : splitOn '\n' i.Description.data = codecLines f := by
    rw [hd]
    exact splitOn_mrDescription f h1 h2 h3 h4 h5
  have hcont : containsLine markerL (codecLines f) = true := by
    unfold codecLines
    simp [containsLine]
  simp only [ParseMRFields, hlines, hcont, if_true]
  rw [walkBranch, walkTarget, walkSourceIssue, walkWorker, walkRig]
  obtain ⟨B, T, S, W, R⟩ := f
  simp [strMk_if]

def c6Fields : MRFields :=
  { Branch := "polecat/Nux/gt-7", Target := "main", SourceIssue := "gt-7",
    Worker := "Nux", Rig := "gastown" }

def c6Issue : Issue :=
  { ID := "gt-mr-3", Title := "Merge: gt-7", Typ := "task", Status := "open",
    Priority := 2, BlockedBy := [], BlockedByCount := 0, CreatedAt := "",
    Description := mrDescription c6Fields }

theorem C6_roundtrip_witness : ParseMRFields c6Issue = some c6Fields :=
  C6_roundtrip c6Issue c6Fields rfl (by decide) (by decide) (by decide)
    (by decide) (by decide)

end Gastown
